import Mathlib

/-!
Verification development for the delegate-hierarchy type-declaration
transformation engine of the enhancer plugin
(`packages/schema/src/plugins/enhancer/enhance/index.ts`).

The schema graph (data models, fields, attributes, supertype references) and
the declaration tree (the generated `index.d.ts` of the Prisma client) are
embedded as explicit typed structures, following the typed document model the
design notes prescribe: an Interface / TypeAlias / Variable holds an ordered
list of named members, and a type alias's type expression is either a record
of named property signatures or the synthesized payload-union expression.
All transformation functions are translated from the TypeScript source,
keeping its names; string-level search/replace edits on property signatures
are represented as removal of the named property from the record.
-/

namespace ZenstackEnhance

/-! ## Schema graph -/

/-- A field of a data model.  `isDefaultWithAuth` records whether one of the
field's attributes satisfies the `isDefaultWithAuth` predicate (a
`@default(auth()...)` attribute; the predicate itself lives outside this
repository slice, so its verdict is carried as data).  `relationFields`
records, when the field carries a `@relation` attribute whose `fields`
argument is an array expression, the referenced foreign-key field names. -/
structure DataModelField where
  name : String
  isDefaultWithAuth : Bool
  relationFields : Option (List String)
deriving DecidableEq

/-- A data model (entity).  `superTypes` holds the names of the entities it
extends (reference resolution is lookup by name in the schema, mirroring the
resolved AST).  `delegateAttr` records presence of the `@@delegate` marker
attribute; `delegateDiscriminatorRef` holds the name of the field the
marker's first argument resolves to, when that argument is a resolving
reference expression. -/
structure DataModel where
  name : String
  fields : List DataModelField
  superTypes : List String
  delegateAttr : Bool
  delegateDiscriminatorRef : Option String
deriving DecidableEq

/-- The schema: its list of data-model declarations. -/
structure Model where
  declarations : List DataModel
deriving DecidableEq

/-- Modelled from the spec: the sdk's `isDelegateModel` test (its source is
not in the repository slice) is presence of the delegate marker attribute on
the entity; the caller `hasDelegateModel` separately checks for subtypes,
so the marker test itself is marker-only. -/
def isDelegateModel (dm : DataModel) : Bool :=
  dm.delegateAttr

/-- Resolve a supertype reference by name, as the resolved AST does
(`this.model.declarations.find(...)`). -/
def lookupModel (m : Model) (name : String) : Option DataModel :=
  m.declarations.find? (fun d => d.name == name)

/-- `hasDelegateModel`: some data model carries the delegate marker and some
other data model lists it as a supertype. -/
def hasDelegateModel (m : Model) : Bool :=
  m.declarations.any (fun dm =>
    isDelegateModel dm &&
      m.declarations.any (fun sub => sub.superTypes.any (fun base => base == dm.name)))

/-- `hasAuthInDefault`: some field of some data model carries an
auth()-valued default attribute. -/
def hasAuthInDefault (m : Model) : Bool :=
  m.declarations.any (fun dm => dm.fields.any (fun f => f.isDefaultWithAuth))

/-- `needsLogicalClient`: the logical (projected) client is generated iff a
delegate hierarchy exists or some default value uses `auth()`. -/
def needsLogicalClient (m : Model) : Bool :=
  hasDelegateModel m || hasAuthInDefault m

/-- The target of the generated `models.d.ts` re-export module. -/
inductive ModelsReexport where
  | logicalClientFixed
  | prismaClient
deriving DecidableEq

/-- The branch of `generate` that writes `models.d.ts`: it re-exports the
fixed logical client when `needsLogicalClient` holds, the original Prisma
client otherwise. -/
def generateModelsReexport (m : Model) : ModelsReexport :=
  if needsLogicalClient m then .logicalClientFixed else .prismaClient

/-- `getDiscriminatorField`: resolve the delegate marker's first argument;
`none` when the marker is absent or its argument does not resolve to a
field reference. -/
def getDiscriminatorField (delegate : DataModel) : Option String :=
  if delegate.delegateAttr then delegate.delegateDiscriminatorRef else none

/-! ## Discriminator chain walk

`getDiscriminatorFieldsRecursively(delegate, result = [])` in the source
pushes the delegate's own discriminator onto the shared `result` array, then
for each resolving supertype recursively calls itself passing the same
array, and pushes the spread of the returned array (which aliases `result`)
back onto `result`, doubling its contents.  The recursion carries no
visited set, so it is embedded with an explicit fuel parameter: `none`
means the recursion did not complete within `fuel` nested calls. -/

/-- One pass over the supertype list: `rec` is the recursive call at the
next-smaller fuel.  `acc` is the current contents of the shared `result`
array; after a successful recursive call returning contents `r`, the
`result.push(...returned)` step makes the contents `r ++ r`. -/
def gdfrSupers (sch : Model) (rec : DataModel → List String → Option (List String)) :
    List String → List String → Option (List String)
  | [], acc => some acc
  | st :: rest, acc =>
    match lookupModel sch st with
    | none => gdfrSupers sch rec rest acc
    | some m =>
      match rec m acc with
      | none => none
      | some r => gdfrSupers sch rec rest (r ++ r)

/-- `getDiscriminatorFieldsRecursively`, fuel-indexed.  A non-delegate model
returns the array unchanged; a delegate model appends its discriminator
(when it resolves) and then walks its supertype references. -/
def getDiscriminatorFieldsRecursively (sch : Model) :
    Nat → DataModel → List String → Option (List String)
  | 0, _, _ => none
  | fuel + 1, delegate, result =>
    if isDelegateModel delegate then
      gdfrSupers sch (fun m acc => getDiscriminatorFieldsRecursively sch fuel m acc)
        delegate.superTypes
        (match getDiscriminatorField delegate with
         | some d => result ++ [d]
         | none => result)
    else some result

/-- Termination of the discriminator-chain walk on a given schema and entry
model: some fuel suffices for the recursion to complete. -/
def discriminatorWalkTerminates (sch : Model) (dm : DataModel) : Prop :=
  ∃ fuel, (getDiscriminatorFieldsRecursively sch fuel dm []).isSome = true

/-! ## String and pattern utilities

The source matches declaration names with JavaScript regular expressions
built at runtime from model names.  The exact patterns in play use only
literals, alternation, one optional group, a dot-star, and (through an
escaping slip, see `delegateCreateUpdateInputTest`) the non-word-boundary
assertion, so their search semantics is embedded directly on character
lists. -/

/-- JS word character for boundary assertions: letters, digits, underscore. -/
def isWordChar (c : Char) : Bool :=
  c.isAlpha || c.isDigit || c == '_'

/-- Literal-prefix test on character lists. -/
def startsWithList : List Char → List Char → Bool
  | [], _ => true
  | _ :: _, [] => false
  | p :: ps, c :: cs => p == c && startsWithList ps cs

/-- Substring containment (unanchored literal search). -/
def hasSubstrList (needle : List Char) : List Char → Bool
  | [] => startsWithList needle []
  | c :: rest => startsWithList needle (c :: rest) || hasSubstrList needle rest

/-- Unanchored regex search: try the alternative's matcher at every start
position, carrying the character to the left of the position for boundary
assertions. -/
def searchFrom (p : Option Char → List Char → Bool) : Option Char → List Char → Bool
  | prev, [] => p prev []
  | prev, c :: rest => p prev (c :: rest) || searchFrom p (some c) rest

/-- The non-word-boundary assertion: the position is not a word boundary,
i.e. the word-ness of the characters on both sides agrees (the outside of
the string counts as non-word). -/
def nwbAt (prev : Option Char) (s : List Char) : Bool :=
  (match prev with
   | some c => isWordChar c
   | none => false)
    == (match s with
        | c :: _ => isWordChar c
        | [] => false)

def uncheckedChars : List Char := "Unchecked".data

def createChars : List Char := "Create".data

def updateChars : List Char := "Update".data

def inputChars : List Char := "Input".data

/-- Matches `(Create|Update).*Input` at the start of `cs` (the remainder
after `Input` is unconstrained, as the patterns are unanchored). -/
def cuCore (cs : List Char) : Bool :=
  (startsWithList createChars cs && hasSubstrList inputChars (cs.drop 6))
    || (startsWithList updateChars cs && hasSubstrList inputChars (cs.drop 6))

/-- Matches `(Unchecked)?(Create|Update).*Input` at the start of `cs`. -/
def cuTail (cs : List Char) : Bool :=
  cuCore cs || (startsWithList uncheckedChars cs && cuCore (cs.drop 9))

/-- One alternative of the concrete-input pattern
`(<names-joined-by-bars>)(Unchecked)?(Create|Update).*Input`: the model name
literally, then the optional/alternation tail. -/
def concreteInputAlternative (n : String) (cs : List Char) : Bool :=
  startsWithList n.data cs && cuTail (cs.drop n.data.length)

/-- Leftmost-match search for the concrete-input pattern, returning the
model name captured by the first group: positions are scanned left to
right, and at each position the alternatives are tried in list order, as
JS alternation does. -/
def ciSearch (names : List String) : List Char → Option String
  | [] =>
    match names.find? (fun n => concreteInputAlternative n []) with
    | some n => some n
    | none => none
  | c :: rest =>
    match names.find? (fun n => concreteInputAlternative n (c :: rest)) with
    | some n => some n
    | none => ciSearch names rest

/-- `typeName.match(concreteCreateUpdateInputRegex)` from
`removeDiscriminatorFromConcreteInput`, returning capture group 1 (the
concrete model name).  With an empty name list the source's regex has an
empty first group whose capture matches no model name and triggers no
rewrite; that degenerate case is modeled as no match. -/
def concreteInputMatch (names : List String) (typeName : String) : Option String :=
  ciSearch names typeName.data

/-- The first alternative of the delegate-input pattern.  The source builds
`new RegExp('\\' + delegateModelNames.join('|') + '(Unchecked)?(Create|Update).*Input')`,
so a single backslash precedes the first delegate name: the escape consumes
the name's first character.  When that character is `B`, JS reads the
non-word-boundary assertion, and the rest of the name is matched literally
with no anchor on its first letter; for first letters whose JS escape is an
identity escape (such as `A` or `M`) the name is matched literally.  First
letters with class or boundary escapes (`b`, `d`, `s`, `w` and their
uppercase forms) are not modeled; no delegate in this development is named
with them. -/
def escFirstAlternative (n : String) (tailTest : List Char → Bool)
    (prev : Option Char) (s : List Char) : Bool :=
  match n.data with
  | [] => tailTest s
  | c :: rest =>
    if c == 'B' then
      nwbAt prev s && startsWithList rest s && tailTest (s.drop rest.length)
    else
      startsWithList (c :: rest) s && tailTest (s.drop (c :: rest).length)

/-- A plain literal alternative followed by the optional/alternation tail. -/
def litAlternative (n : String) (tailTest : List Char → Bool)
    (_prev : Option Char) (s : List Char) : Bool :=
  startsWithList n.data s && tailTest (s.drop n.data.length)

/-- The alternatives after the first delegate name.  Because the source
does not parenthesize the joined names, the alternation splits at top
level: every middle name is an alternative on its own (a bare substring
test), and only the last name carries the
`(Unchecked)?(Create|Update).*Input` tail. -/
def delegateRestAlternatives : List String → List Char → Bool
  | [], _ => false
  | [n], s => searchFrom (litAlternative n cuTail) none s
  | n :: rest, s => hasSubstrList n.data s || delegateRestAlternatives rest s

/-- `delegateCreateUpdateInputRegex.test(typeName)` from
`removeCreateFromDelegateInput`, with the source's escaping slip preserved:
the pattern is `\<name1>|<name2>|...|<nameK>(Unchecked)?(Create|Update).*Input`.
The empty-name-list case would make the backslash escape the `(` of the
tail, leaving an unbalanced group that `new RegExp` rejects; the
transformation only runs with a non-empty delegate list, and the case is
modeled as no match. -/
def delegateCreateUpdateInputTest (names : List String) (typeName : String) : Bool :=
  match names with
  | [] => false
  | [n] => searchFrom (escFirstAlternative n cuTail) none typeName.data
  | n :: rest =>
    searchFrom (escFirstAlternative n (fun _ => true)) none typeName.data
      || delegateRestAlternatives rest typeName.data

/-- Follows the spec's words, not the source (for comparison against
`delegateCreateUpdateInputTest`): a type alias name matches the delegate
mutation-input convention when some delegate entity's name occurs
literally, followed by `(Unchecked)?(Create|Update)` and a later `Input`. -/
def specDelegateInputTest (names : List String) (typeName : String) : Bool :=
  names.any (fun n => searchFrom (litAlternative n cuTail) none typeName.data)

/-- Models the runtime constant holding the reserved synthetic prefix for
delegate back-reference machinery (imported from the runtime package, whose
source is not in the repository slice; the spec calls it the reserved
synthetic prefix). -/
def delegateAuxRelationMarker : String := "delegate_aux"

/-- A member name starting with the reserved synthetic prefix. -/
def isAuxName (s : String) : Bool :=
  startsWithList delegateAuxRelationMarker.data s.data

/-- `upperCaseFirst` from the upper-case-first package: capitalize the
first character. -/
def upperCaseFirst (s : String) : String :=
  match s.data with
  | [] => s
  | c :: rest => String.mk (c.toUpper :: rest)

def nestedCreateMarker : List Char :=
  ("CreateWithout" ++ upperCaseFirst delegateAuxRelationMarker ++ "_").data

def nestedUpdateMarker : List Char :=
  ("UpdateWithout" ++ upperCaseFirst delegateAuxRelationMarker ++ "_").data

/-- Split a character list at a separator character, as JS
`String.prototype.split` with a single-character separator. -/
def splitOnChar (sep : Char) : List Char → List (List Char)
  | [] => [[]]
  | c :: rest =>
    let r := splitOnChar sep rest
    if c == sep then [] :: r
    else
      match r with
      | [] => [[c]]
      | h :: t => (c :: h) :: t

/-- Greedy split for group 3 of the nested-mutation pattern `(.+)Input`:
the largest nonempty prefix of `r` followed by a literal `Input`. -/
def lastInputIdx (r : List Char) : Option Nat :=
  ((List.range (r.length + 1)).filter
    (fun j => decide (1 ≤ j) && startsWithList inputChars (r.drop j))).getLast?

/-- Try the nested-mutation pattern with group 1 ending at index `i`:
`(Create|Update)WithoutDelegate_aux_` must follow, and the remainder must
contain a nonempty greedy group 3 followed by `Input`. -/
def nestedTupleAt (cs : List Char) (i : Nat) : Option (List Char) :=
  let rest := cs.drop i
  let afterCU :=
    if startsWithList nestedCreateMarker rest then some (rest.drop nestedCreateMarker.length)
    else if startsWithList nestedUpdateMarker rest then some (rest.drop nestedUpdateMarker.length)
    else none
  match afterCU with
  | none => none
  | some r =>
    match lastInputIdx r with
    | none => none
    | some j => some (r.take j)

/-- `name.match(regex)` from `removeDelegateFieldsFromNestedMutationInput`,
for the pattern `(.+)(Create|Update)Without<UpperCasedAuxMarker>_(.+)Input`:
group 1 is greedy, so the largest viable split index is taken; group 3 is
the greedy tuple `modelName_relationFieldName_concreteModelName`, of which
the source destructures the first two underscore-separated components.
When the tuple has fewer than two components the source's subsequent
lookups all fail and no property is removed, which is collapsed here into
a non-match. -/
def nestedMutationMatch (name : String) : Option (String × String) :=
  let cs := name.data
  match ((List.range (cs.length + 1)).filter
          (fun i => decide (1 ≤ i) && (nestedTupleAt cs i).isSome)).getLast? with
  | none => none
  | some i =>
    match nestedTupleAt cs i with
    | none => none
    | some t =>
      match (splitOnChar '_' t).map (fun l => String.mk l) with
      | mName :: relName :: _ => some (mName, relName)
      | _ => none

/-! ## Declaration tree

The typed document model: each declaration kind holds its name and an
ordered list of named members.  A type alias's type expression is either a
record of named property signatures (the shapes the subtractive rewrites
edit by locating a named property signature and deleting its text) or the
payload union synthesized by `fixDelegatePayloadType`. -/

/-- A type alias's type expression.  `record props` is an object-like type
listing its property-signature names.  `payloadUnion disc concretes`
denotes the synthesized textual union, over the concrete names in order,
of the parenthesized intersection of the concrete's payload type (with its
ExtArgs parameter) and a scalars object pinning the discriminator `disc`
to the concrete's name, joined by bars; with no concretes the join yields
the empty type expression text. -/
inductive TypeExpr where
  | record (props : List String)
  | payloadUnion (discriminator : String) (concretes : List String)
deriving DecidableEq

/-- The property-signature names of a type expression.  The synthesized
payload union carries no editable property signatures of its own: the only
signatures in its text are `scalars` and the discriminator, neither of
which any subtractive rewrite ever targets (they match neither the aux
prefix nor the removed capability names, and payload alias names match no
input-type pattern). -/
def TypeExpr.props : TypeExpr → List String
  | .record ps => ps
  | .payloadUnion _ _ => []

/-- Keep only the property signatures satisfying `keep`; a locate-and-delete
edit of a named property in the source text.  On the payload union it is
the identity, matching the source where a replace of an absent property
text is a no-op. -/
def filterProps (keep : String → Bool) : TypeExpr → TypeExpr
  | .record ps => .record (ps.filter keep)
  | .payloadUnion d cs => .payloadUnion d cs

/-- Delete every property signature whose name is listed. -/
def removeProps (names : List String) (e : TypeExpr) : TypeExpr :=
  filterProps (fun p => !(names.contains p)) e

structure InterfaceDecl where
  name : String
  properties : List String
  methods : List String
deriving DecidableEq

structure TypeAliasDecl where
  name : String
  type : TypeExpr
deriving DecidableEq

structure VarDecl where
  name : String
  typeProps : List String
deriving DecidableEq

structure VariableStmt where
  declarations : List VarDecl
deriving DecidableEq

/-- A namespace declaration.  The transformation only restructures the
namespace named `Prisma`; nested namespaces inside it are copied verbatim
and are kept opaque here. -/
structure ModuleDecl where
  name : String
  importEquals : List String
  classes : List String
  functions : List String
  nestedModules : List String
  variableStatements : List VariableStmt
  interfaces : List InterfaceDecl
  typeAliases : List TypeAliasDecl
deriving DecidableEq

/-- The generated `index.d.ts`: toplevel categories plus namespaces. -/
structure SourceFile where
  imports : List String
  importEquals : List String
  exportAssignments : List String
  typeAliases : List TypeAliasDecl
  classes : List String
  variableStatements : List VariableStmt
  modules : List ModuleDecl
deriving DecidableEq

/-- Information of delegate models and their sub models. -/
abbrev DelegateInfo := List (DataModel × List DataModel)

/-! ## The transformation pass -/

/-- `transformVariableStatement`: delete the aux-prefixed property
signatures from every declaration's type annotation. -/
def transformVariableStatement (v : VariableStmt) : VariableStmt :=
  ⟨v.declarations.map (fun d => ⟨d.name, d.typeProps.filter (fun p => !(isAuxName p))⟩)⟩

def createCreateManyUpsert : List String := ["create", "createMany", "upsert"]

/-- `transformInterface`: filter out aux properties and methods, and for
the operations interface of a delegate model, the `create`, `createMany`
and `upsert` methods. -/
def transformInterface (di : DelegateInfo) (iface : InterfaceDecl) : InterfaceDecl :=
  let properties := iface.properties.filter (fun p => !(isAuxName p))
  let methods := iface.methods.filter (fun m => !(isAuxName m))
  let methods :=
    if di.any (fun p => p.1.name ++ "Delegate" == iface.name) then
      methods.filter (fun m => !(createCreateManyUpsert.contains m))
    else methods
  ⟨iface.name, properties, methods⟩

/-- `removeAuxFieldsFromTypeAlias`: delete aux-prefixed property
signatures from the aliased type expression. -/
def removeAuxFieldsFromTypeAlias (source : TypeExpr) : TypeExpr :=
  filterProps (fun p => !(isAuxName p)) source

/-- The concrete model names of the hierarchy index, in index order
(`delegateInfo.map(([, concretes]) => concretes.map(c => c.name)).flatMap(c => c)`). -/
def concreteModelNamesOf (di : DelegateInfo) : List String :=
  (di.map (fun p => p.2.map (fun c => c.name))).flatten

/-- The discriminator fields removed from a concrete input alias of the
given name: when the name matches the concrete-input pattern and a
hierarchy entry owns the matched model, the recursive discriminator chain
of that entry's delegate; otherwise the empty set (the source leaves the
expression untouched in those cases).  `none` means the chain walk did not
complete within the fuel. -/
def concreteDiscriminatorChain (sch : Model) (di : DelegateInfo) (fuel : Nat)
    (typeName : String) : Option (List String) :=
  match concreteInputMatch (concreteModelNamesOf di) typeName with
  | none => some []
  | some modelName =>
    match di.find? (fun p => p.2.any (fun c => c.name == modelName)) with
    | none => some []
    | some entry => getDiscriminatorFieldsRecursively sch fuel entry.1 []

/-- `removeDiscriminatorFromConcreteInput`: delete every discriminator of
the governing delegate's recursive chain from the aliased expression. -/
def removeDiscriminatorFromConcreteInput (sch : Model) (di : DelegateInfo) (fuel : Nat)
    (typeName : String) (source : TypeExpr) : Option TypeExpr :=
  match concreteDiscriminatorChain sch di fuel typeName with
  | none => none
  | some ds => some (removeProps ds source)

def createConnectUpsertNames : List String := ["create", "connectOrCreate", "upsert"]

/-- `removeCreateFromDelegateInput`: when the alias name passes the
delegate-input regex test, delete the `create`, `connectOrCreate` and
`upsert` property signatures. -/
def removeCreateFromDelegateInput (di : DelegateInfo) (typeName : String)
    (source : TypeExpr) : TypeExpr :=
  if delegateCreateUpdateInputTest (di.map (fun p => p.1.name)) typeName then
    removeProps createConnectUpsertNames source
  else source

/-- `removeDelegateFieldsFromNestedMutationInput`: on a
create/update-without-aux-relation alias, delete the relation field
property and, when the named model's relation field carries a `@relation`
attribute with a `fields` array, every listed foreign-key property. -/
def removeDelegateFieldsFromNestedMutationInput (sch : Model) (typeName : String)
    (source : TypeExpr) : TypeExpr :=
  match nestedMutationMatch typeName with
  | none => source
  | some (modelName, relationFieldName) =>
    let source := removeProps [relationFieldName] source
    match sch.declarations.find? (fun d => d.name == modelName) with
    | none => source
    | some relationModel =>
      match relationModel.fields.find? (fun f => f.name == relationFieldName) with
      | none => source
      | some relationField =>
        match relationField.relationFields with
        | none => source
        | some fkFields => removeProps fkFields source

/-- `fixDelegatePayloadType`: for the payload alias of a delegate whose
discriminator resolves, replace the whole expression with the union over
the entry's concrete subtypes in index order; otherwise leave the
expression as it is. -/
def fixDelegatePayloadType (di : DelegateInfo) (typeName : String)
    (source : TypeExpr) : TypeExpr :=
  match di.find? (fun p => "$" ++ p.1.name ++ "Payload" == typeName) with
  | none => source
  | some payloadRecord =>
    match getDiscriminatorField payloadRecord.1 with
    | none => source
    | some discriminatorDecl =>
      .payloadUnion discriminatorDecl (payloadRecord.2.map (fun c => c.name))

/-- The four subtractive rewrites of `transformTypeAlias`, in source order:
aux stripping, discriminator exclusion, delegate-capability exclusion,
nested delegate-relation stripping. -/
def subtractiveTypeAliasRewrites (sch : Model) (di : DelegateInfo) (fuel : Nat)
    (ta : TypeAliasDecl) : Option TypeAliasDecl :=
  match removeDiscriminatorFromConcreteInput sch di fuel ta.name
      (removeAuxFieldsFromTypeAlias ta.type) with
  | none => none
  | some s2 =>
    some ⟨ta.name,
      removeDelegateFieldsFromNestedMutationInput sch ta.name
        (removeCreateFromDelegateInput di ta.name s2)⟩

/-- `transformTypeAlias`: the subtractive rewrites followed by the payload
union synthesis. -/
def transformTypeAlias (sch : Model) (di : DelegateInfo) (fuel : Nat)
    (ta : TypeAliasDecl) : Option TypeAliasDecl :=
  match subtractiveTypeAliasRewrites sch di fuel ta with
  | none => none
  | some ta' => some ⟨ta'.name, fixDelegatePayloadType di ta'.name ta'.type⟩

/-- Effectful map over `Option`, written out structurally. -/
def mapMOption {α β : Type} (f : α → Option β) : List α → Option (List β)
  | [] => some []
  | x :: xs =>
    match f x with
    | none => none
    | some y =>
      match mapMOption f xs with
      | none => none
      | some ys => some (y :: ys)

/-- `transformPrismaModule`: copy imports, classes, functions and nested
namespaces; transform variables, interfaces and type aliases. -/
def transformPrismaModule (sch : Model) (di : DelegateInfo) (fuel : Nat)
    (m : ModuleDecl) : Option ModuleDecl :=
  match mapMOption (transformTypeAlias sch di fuel) m.typeAliases with
  | none => none
  | some newAliases =>
    some { m with
      variableStatements := m.variableStatements.map transformVariableStatement
      interfaces := m.interfaces.map (transformInterface di)
      typeAliases := newAliases }

/-- `transformDelegate`: copy every toplevel category verbatim, copy the
namespaces other than `Prisma` verbatim, and transform the `Prisma`
namespace (whose absence is a thrown error in the source). -/
def transformDelegate (sch : Model) (di : DelegateInfo) (fuel : Nat)
    (sf : SourceFile) : Option SourceFile :=
  match sf.modules.find? (fun m => m.name == "Prisma") with
  | none => none
  | some prismaModule =>
    match transformPrismaModule sch di fuel prismaModule with
    | none => none
    | some newPrismaModule =>
      some { sf with
        modules := sf.modules.filter (fun m => !(m.name == "Prisma")) ++ [newPrismaModule] }

/-- The hierarchy index of `processClientTypes`: one entry per data model
carrying the delegate marker, paired with the models that list it as a
direct supertype. -/
def buildDelegateInfo (sch : Model) : DelegateInfo :=
  (sch.declarations.filter isDelegateModel).map (fun dm =>
    (dm, sch.declarations.filter (fun d => d.superTypes.any (fun s => s == dm.name))))

/-- `processClientTypes`: transform when the hierarchy index is non-empty,
otherwise copy the tree verbatim. -/
def processClientTypes (sch : Model) (fuel : Nat) (sf : SourceFile) : Option SourceFile :=
  let delegateInfo := buildDelegateInfo sch
  if 0 < delegateInfo.length then transformDelegate sch delegateInfo fuel sf
  else some sf

/-! ## External generator invocation (`generateLogicalPrisma`) -/

inductive ExecOutcome where
  | success
  | failure
deriving DecidableEq

/-- The stdio disposition of a generator invocation: the first attempt
discards output, the diagnostic rerun inherits the console. -/
inductive StdioMode where
  | ignored
  | inherited
deriving DecidableEq

/-- The outcomes the two possible `prisma generate` invocations of one run
would have (the second is consulted only if the first fails). -/
structure ExecTrace where
  first : ExecOutcome
  second : ExecOutcome
deriving DecidableEq

inductive GenerateOutcome where
  | ok
  | pluginError
deriving DecidableEq

/-- The control flow of `generateLogicalPrisma` around the external
generator: try quietly; on failure, rerun with console output for the
operator and then throw the plugin error unconditionally — the catch block
around the rerun is a no-op, so the rerun's own outcome is never
consulted.  Returns the run outcome and the invocations performed. -/
def generateLogicalPrisma (t : ExecTrace) : GenerateOutcome × List StdioMode :=
  match t.first with
  | .success => (.ok, [.ignored])
  | .failure => (.pluginError, [.ignored, .inherited])

/-! ## Aux-member presence checkers -/

def interfaceHasAuxMember (i : InterfaceDecl) : Bool :=
  i.properties.any isAuxName || i.methods.any isAuxName

def moduleHasAuxMember (m : ModuleDecl) : Bool :=
  m.interfaces.any interfaceHasAuxMember
    || m.typeAliases.any (fun t => t.type.props.any isAuxName)
    || m.variableStatements.any (fun v => v.declarations.any (fun d => d.typeProps.any isAuxName))

def sourceFileHasAuxMember (sf : SourceFile) : Bool :=
  sf.typeAliases.any (fun t => t.type.props.any isAuxName)
    || sf.variableStatements.any (fun v => v.declarations.any (fun d => d.typeProps.any isAuxName))
    || sf.modules.any moduleHasAuxMember

/-- The names `removeDelegateFieldsFromNestedMutationInput` deletes from a
type alias of the given name: the relation field and, when resolvable, its
foreign-key fields (empty when the name does not match the pattern). -/
def nestedRemovalNames (sch : Model) (typeName : String) : List String :=
  match nestedMutationMatch typeName with
  | none => []
  | some (modelName, relationFieldName) =>
    relationFieldName ::
      (match sch.declarations.find? (fun d => d.name == modelName) with
       | none => []
       | some relationModel =>
         match relationModel.fields.find? (fun f => f.name == relationFieldName) with
         | none => []
         | some relationField =>
           match relationField.relationFields with
           | none => []
           | some fkFields => fkFields)

/-! ## Concrete schemas and declaration trees

Instances used to evaluate the transformation: a two-level delegate
hierarchy, a delegate with two concrete subtypes, a delegate-marked model
with no subtypes, a cyclic supertype graph, and delegate-free schemas. -/

/-- Delegate base of the two-level hierarchy, discriminator `kind`. -/
def baseModel : DataModel :=
  ⟨"Base", [⟨"id", false, none⟩, ⟨"kind", false, none⟩], [], true, some "kind"⟩

/-- Middle level: delegate itself, extends `Base`, discriminator `type`. -/
def midModel : DataModel :=
  ⟨"Mid", [⟨"type", false, none⟩], ["Base"], true, some "type"⟩

/-- Concrete leaf extending `Mid`. -/
def leafModel : DataModel :=
  ⟨"Leaf", [⟨"url", false, none⟩], ["Mid"], false, none⟩

def hierarchySchema : Model := ⟨[baseModel, midModel, leafModel]⟩

def hierarchyInfo : DelegateInfo := buildDelegateInfo hierarchySchema

/-- A rank function witnessing that `hierarchySchema`'s supertype graph is
acyclic. -/
def hierarchyRank : String → Nat :=
  fun n => if n == "Leaf" then 2 else if n == "Mid" then 1 else 0

/-- Whether every resolving supertype reference strictly decreases the
given rank — an explicit acyclicity certificate for the supertype graph. -/
def rankDecreases (sch : Model) (rank : String → Nat) : Bool :=
  sch.declarations.all (fun dm => dm.superTypes.all (fun st =>
    match lookupModel sch st with
    | some m => decide (rank m.name < rank dm.name)
    | none => true))

/-- Concrete subtype `A` of `Base`. -/
def modelA : DataModel := ⟨"A", [], ["Base"], false, none⟩

/-- Concrete subtype `B2` of `Base`. -/
def modelB2 : DataModel := ⟨"B2", [], ["Base"], false, none⟩

/-- `Base` with the two concrete subtypes `A` and `B2`. -/
def unionSchema : Model := ⟨[baseModel, modelA, modelB2]⟩

/-- A model whose only field has an auth()-valued default. -/
def authUserModel : DataModel := ⟨"User", [⟨"id", true, none⟩], [], false, none⟩

/-- `Base` carries the delegate marker but has no subtypes; the auth-valued
default on `User` makes the logical path reachable. -/
def markerNoSubSchema : Model := ⟨[baseModel, authUserModel]⟩

/-- A schema with no delegate-marked model at all. -/
def plainSchema : Model := ⟨[⟨"User", [⟨"id", false, none⟩], [], false, none⟩]⟩

/-- A schema with an auth-valued default and no delegate marker. -/
def authOnlySchema : Model := ⟨[authUserModel]⟩

/-- Cyclic supertype graph: `A` extends `B` extends `A`, both delegate. -/
def cycA : DataModel := ⟨"A", [], ["B"], true, some "ka"⟩

def cycB : DataModel := ⟨"B", [], ["A"], true, some "kb"⟩

def cycSchema : Model := ⟨[cycA, cycB]⟩

/-- A declaration tree whose Prisma namespace holds the payload alias of
`Base` as a flat record. -/
def sfBasePayload : SourceFile :=
  ⟨[], [], [], [], [], [],
    [⟨"Prisma", [], [], [], [], [], [], [⟨"$BasePayload", .record ["id", "kind"]⟩]⟩]⟩

/-- What `processClientTypes` produces from `sfBasePayload` under a
marker-only `Base`: the payload alias becomes the union over zero
subtypes, the empty type expression. -/
def sfBasePayloadOut : SourceFile :=
  ⟨[], [], [], [], [], [],
    [⟨"Prisma", [], [], [], [], [], [], [⟨"$BasePayload", .payloadUnion "kind" []⟩]⟩]⟩

/-- A declaration tree whose Prisma namespace holds an interface carrying
an aux-prefixed property. -/
def sfWithAux : SourceFile :=
  ⟨[], [], [], [], [], [],
    [⟨"Prisma", [], [], [], [], [],
      [⟨"UserArgs", ["delegate_aux_back"], []⟩], []⟩]⟩

/-- A Prisma namespace holding an interface with an aux-prefixed property. -/
def prismaAuxModule : ModuleDecl :=
  ⟨"Prisma", [], [], [], [], [], [⟨"UserArgs", ["delegate_aux_back"], []⟩], []⟩

/-- The transform of `prismaAuxModule`: the aux property is stripped. -/
def prismaAuxModuleOut : ModuleDecl :=
  ⟨"Prisma", [], [], [], [], [], [⟨"UserArgs", [], []⟩], []⟩

/-! ## Lemmas about property filtering -/

theorem filterProps_props (keep : String → Bool) (e : TypeExpr) :
    (filterProps keep e).props = e.props.filter keep := by
  cases e <;> rfl

theorem mem_filterProps {p : String} {keep : String → Bool} {e : TypeExpr} :
    p ∈ (filterProps keep e).props ↔ p ∈ e.props ∧ keep p = true := by
  rw [filterProps_props, List.mem_filter]

theorem filterProps_noop {keep : String → Bool} {e : TypeExpr}
    (h : ∀ p ∈ e.props, keep p = true) : filterProps keep e = e := by
  cases e with
  | record ps =>
    show TypeExpr.record (ps.filter keep) = TypeExpr.record ps
    exact congrArg TypeExpr.record (List.filter_eq_self.mpr h)
  | payloadUnion d cs => rfl

theorem props_removeProps_subset {p : String} {ns : List String} {e : TypeExpr}
    (h : p ∈ (removeProps ns e).props) : p ∈ e.props :=
  (mem_filterProps.mp h).1

theorem mem_removeProps_not_contains {p : String} {ns : List String} {e : TypeExpr}
    (h : p ∈ (removeProps ns e).props) : ns.contains p = false := by
  have := (mem_filterProps.mp h).2
  simpa using this

theorem not_mem_removeProps {p : String} {ns : List String} {e : TypeExpr}
    (h : p ∈ ns) : p ∉ (removeProps ns e).props := by
  intro hm
  have hc := mem_removeProps_not_contains hm
  simp [h] at hc

theorem removeProps_noop {ns : List String} {e : TypeExpr}
    (h : ∀ p ∈ e.props, ns.contains p = false) : removeProps ns e = e :=
  filterProps_noop (by
    intro p hp
    show (!ns.contains p) = true
    rw [Bool.not_eq_true']
    exact h p hp)

theorem removeProps_payloadUnion (ns : List String) (d : String) (cs : List String) :
    removeProps ns (.payloadUnion d cs) = .payloadUnion d cs := rfl

theorem filterProps_filterProps (p q : String → Bool) (e : TypeExpr) :
    filterProps p (filterProps q e) = filterProps (fun x => q x && p x) e := by
  cases e with
  | payloadUnion d cs => rfl
  | record ps =>
    show TypeExpr.record _ = TypeExpr.record _
    refine congrArg TypeExpr.record ?_
    induction ps with
    | nil => rfl
    | cons x xs ih =>
      cases hq : q x <;> cases hp : p x <;> simp [List.filter, hq, hp, ih]

theorem filterProps_congr {p q : String → Bool} (h : ∀ x, p x = q x) (e : TypeExpr) :
    filterProps p e = filterProps q e := by
  cases e with
  | payloadUnion d cs => rfl
  | record ps =>
    exact congrArg TypeExpr.record (List.filter_congr (fun x _ => by rw [h x]))

theorem removeProps_cons (n : String) (ns : List String) (e : TypeExpr) :
    removeProps (n :: ns) e = removeProps ns (removeProps [n] e) := by
  unfold removeProps
  rw [filterProps_filterProps]
  refine filterProps_congr ?_ e
  intro x
  by_cases h1 : x = n <;> by_cases h2 : x ∈ ns <;>
    simp [List.contains_cons, h1, h2]

/-! ## Lemmas about the individual subtractive rewrites -/

theorem removeAux_mem {p : String} {e : TypeExpr}
    (h : p ∈ (removeAuxFieldsFromTypeAlias e).props) :
    p ∈ e.props ∧ isAuxName p = false := by
  have := mem_filterProps.mp h
  simpa using this

theorem removeAux_noop {e : TypeExpr}
    (h : ∀ p ∈ e.props, isAuxName p = false) : removeAuxFieldsFromTypeAlias e = e :=
  filterProps_noop (by intro p hp; simp [h p hp])

theorem removeCreate_props_subset {di : DelegateInfo} {n : String} {e : TypeExpr} {p : String}
    (h : p ∈ (removeCreateFromDelegateInput di n e).props) : p ∈ e.props := by
  unfold removeCreateFromDelegateInput at h
  split at h
  · exact props_removeProps_subset h
  · exact h

theorem mem_removeCreate_spec {di : DelegateInfo} {n : String} {e : TypeExpr} {p : String}
    (h : p ∈ (removeCreateFromDelegateInput di n e).props)
    (ht : delegateCreateUpdateInputTest (di.map (fun q => q.1.name)) n = true) :
    createConnectUpsertNames.contains p = false := by
  unfold removeCreateFromDelegateInput at h
  rw [if_pos ht] at h
  exact mem_removeProps_not_contains h

theorem removeCreate_noop {di : DelegateInfo} {n : String} {e : TypeExpr}
    (h : ∀ p ∈ e.props, createConnectUpsertNames.contains p = false) :
    removeCreateFromDelegateInput di n e = e := by
  unfold removeCreateFromDelegateInput
  split
  · exact removeProps_noop h
  · rfl

theorem removeCreate_payloadUnion (di : DelegateInfo) (n d : String) (cs : List String) :
    removeCreateFromDelegateInput di n (.payloadUnion d cs) = .payloadUnion d cs := by
  unfold removeCreateFromDelegateInput
  split <;> rfl

theorem removeNested_eq_removeProps (sch : Model) (n : String) (e : TypeExpr) :
    removeDelegateFieldsFromNestedMutationInput sch n e
      = removeProps (nestedRemovalNames sch n) e := by
  unfold removeDelegateFieldsFromNestedMutationInput nestedRemovalNames
  cases hm : nestedMutationMatch n with
  | none =>
    dsimp only
    have h0 : removeProps ([] : List String) e = e := removeProps_noop (fun p _ => rfl)
    exact h0.symm
  | some pr =>
    obtain ⟨mn, rn⟩ := pr
    dsimp only
    cases hfm : sch.declarations.find? (fun d => d.name == mn) with
    | none => rfl
    | some relationModel =>
      dsimp only
      cases hff : relationModel.fields.find? (fun f => f.name == rn) with
      | none => rfl
      | some relationField =>
        dsimp only
        cases hrf : relationField.relationFields with
        | none => rfl
        | some fkFields => exact (removeProps_cons rn fkFields e).symm

theorem removeNested_props_subset {sch : Model} {n : String} {e : TypeExpr} {p : String}
    (h : p ∈ (removeDelegateFieldsFromNestedMutationInput sch n e).props) : p ∈ e.props := by
  rw [removeNested_eq_removeProps] at h
  exact props_removeProps_subset h

theorem removeNested_payloadUnion (sch : Model) (n d : String) (cs : List String) :
    removeDelegateFieldsFromNestedMutationInput sch n (.payloadUnion d cs)
      = .payloadUnion d cs := by
  rw [removeNested_eq_removeProps]
  rfl

theorem fix_props_subset {di : DelegateInfo} {n : String} {e : TypeExpr} {p : String}
    (h : p ∈ (fixDelegatePayloadType di n e).props) : p ∈ e.props := by
  unfold fixDelegatePayloadType at h
  split at h
  · exact h
  · split at h
    · exact h
    · simp [TypeExpr.props] at h

theorem removeAux_payloadUnion (d : String) (cs : List String) :
    removeAuxFieldsFromTypeAlias (.payloadUnion d cs) = .payloadUnion d cs := rfl

theorem listFilter_idem {α : Type} (f : α → Bool) (l : List α) :
    (l.filter f).filter f = l.filter f := by
  induction l with
  | nil => rfl
  | cons x xs ih => cases hf : f x <;> simp [List.filter, hf, ih]

/-! ## Idempotence of the subtractive rewrites -/

theorem subtractive_decomp {sch : Model} {di : DelegateInfo} {fuel : Nat}
    {ta out : TypeAliasDecl}
    (h : subtractiveTypeAliasRewrites sch di fuel ta = some out) :
    ∃ ds, concreteDiscriminatorChain sch di fuel ta.name = some ds ∧
      out = ⟨ta.name,
        removeDelegateFieldsFromNestedMutationInput sch ta.name
          (removeCreateFromDelegateInput di ta.name
            (removeProps ds (removeAuxFieldsFromTypeAlias ta.type)))⟩ := by
  unfold subtractiveTypeAliasRewrites removeDiscriminatorFromConcreteInput at h
  cases hc : concreteDiscriminatorChain sch di fuel ta.name with
  | none =>
    rw [hc] at h
    exact absurd h (by simp)
  | some ds =>
    rw [hc] at h
    dsimp only at h
    exact ⟨ds, rfl, (Option.some.inj h).symm⟩

theorem subtractive_payloadUnion {sch : Model} {di : DelegateInfo} {fuel : Nat}
    {n d : String} {cs ds : List String}
    (hc : concreteDiscriminatorChain sch di fuel n = some ds) :
    subtractiveTypeAliasRewrites sch di fuel ⟨n, .payloadUnion d cs⟩
      = some ⟨n, .payloadUnion d cs⟩ := by
  unfold subtractiveTypeAliasRewrites removeDiscriminatorFromConcreteInput
  dsimp only
  rw [hc]
  dsimp only
  rw [removeAux_payloadUnion, removeProps_payloadUnion, removeCreate_payloadUnion,
    removeNested_payloadUnion]

theorem subtractive_fixed_point {sch : Model} {di : DelegateInfo} {fuel : Nat}
    {ta out : TypeAliasDecl}
    (h : subtractiveTypeAliasRewrites sch di fuel ta = some out) :
    subtractiveTypeAliasRewrites sch di fuel out = some out := by
  obtain ⟨ds, hc, hout⟩ := subtractive_decomp h
  set E := removeDelegateFieldsFromNestedMutationInput sch ta.name
      (removeCreateFromDelegateInput di ta.name
        (removeProps ds (removeAuxFieldsFromTypeAlias ta.type))) with hE
  subst hout
  have hsub : ∀ p ∈ E.props,
      p ∈ (removeProps ds (removeAuxFieldsFromTypeAlias ta.type)).props := by
    intro p hp
    rw [hE] at hp
    exact removeCreate_props_subset (removeNested_props_subset hp)
  have haux : ∀ p ∈ E.props, isAuxName p = false := by
    intro p hp
    exact (removeAux_mem (props_removeProps_subset (hsub p hp))).2
  have hds : ∀ p ∈ E.props, ds.contains p = false := by
    intro p hp
    exact mem_removeProps_not_contains (hsub p hp)
  have hnest : ∀ p ∈ E.props, (nestedRemovalNames sch ta.name).contains p = false := by
    intro p hp
    rw [hE, removeNested_eq_removeProps] at hp
    exact mem_removeProps_not_contains hp
  unfold subtractiveTypeAliasRewrites removeDiscriminatorFromConcreteInput
  dsimp only
  rw [hc]
  dsimp only
  rw [removeAux_noop haux, removeProps_noop hds]
  have h3 : removeCreateFromDelegateInput di ta.name E = E := by
    by_cases ht : delegateCreateUpdateInputTest (di.map (fun q => q.1.name)) ta.name = true
    · refine removeCreate_noop ?_
      intro p hp
      rw [hE] at hp
      exact mem_removeCreate_spec (removeNested_props_subset hp) ht
    · unfold removeCreateFromDelegateInput
      rw [if_neg ht]
  rw [h3]
  have h4 : removeDelegateFieldsFromNestedMutationInput sch ta.name E = E := by
    rw [removeNested_eq_removeProps]
    exact removeProps_noop hnest
  rw [h4]

theorem transformInterface_idem (di : DelegateInfo) (i : InterfaceDecl) :
    transformInterface di (transformInterface di i) = transformInterface di i := by
  have habs : ∀ (f g : String → Bool) (l : List String),
      ((l.filter f).filter g).filter f = (l.filter f).filter g := by
    intro f g l
    refine List.filter_eq_self.mpr ?_
    intro x hx
    exact (List.mem_filter.mp (List.mem_filter.mp hx).1).2
  unfold transformInterface
  dsimp only
  by_cases ht : di.any (fun p => p.1.name ++ "Delegate" == i.name) = true
  · simp only [if_pos ht, listFilter_idem, habs]
  · simp only [if_neg ht, listFilter_idem]

theorem transformVariableStatement_idem (v : VariableStmt) :
    transformVariableStatement (transformVariableStatement v) = transformVariableStatement v := by
  obtain ⟨l⟩ := v
  unfold transformVariableStatement
  dsimp only
  refine congrArg VariableStmt.mk ?_
  induction l with
  | nil => rfl
  | cons d l ih =>
    simp only [List.map_cons, ih, listFilter_idem]

theorem transform_then_subtractive {sch : Model} {di : DelegateInfo} {fuel : Nat}
    {ta out : TypeAliasDecl}
    (h : transformTypeAlias sch di fuel ta = some out) :
    subtractiveTypeAliasRewrites sch di fuel out = some out := by
  unfold transformTypeAlias at h
  cases hs : subtractiveTypeAliasRewrites sch di fuel ta with
  | none =>
    rw [hs] at h
    exact absurd h (by simp)
  | some ta' =>
    rw [hs] at h
    dsimp only at h
    obtain ⟨ds, hc, hta'⟩ := subtractive_decomp hs
    have hname : ta'.name = ta.name := by rw [hta']
    unfold fixDelegatePayloadType at h
    cases hfind : di.find? (fun p => "$" ++ p.1.name ++ "Payload" == ta'.name) with
    | none =>
      rw [hfind] at h
      dsimp only at h
      have hout : out = ta' := by
        rw [← Option.some.inj h]
      rw [hout]
      exact subtractive_fixed_point hs
    | some pr =>
      rw [hfind] at h
      dsimp only at h
      cases hdisc : getDiscriminatorField pr.1 with
      | none =>
        rw [hdisc] at h
        dsimp only at h
        have hout : out = ta' := by
          rw [← Option.some.inj h]
        rw [hout]
        exact subtractive_fixed_point hs
      | some disc =>
        rw [hdisc] at h
        dsimp only at h
        have hout : out = ⟨ta.name, .payloadUnion disc (pr.2.map (fun c => c.name))⟩ := by
          rw [← Option.some.inj h, hname]
        rw [hout]
        exact subtractive_payloadUnion hc

/-! ## Aux stripping across the transformed namespace -/

theorem mapMOption_mem {α β : Type} {f : α → Option β} :
    ∀ {l : List α} {l' : List β}, mapMOption f l = some l' →
      ∀ y ∈ l', ∃ x ∈ l, f x = some y := by
  intro l
  induction l with
  | nil =>
    intro l' h y hy
    unfold mapMOption at h
    rw [← Option.some.inj h] at hy
    simp at hy
  | cons x xs ih =>
    intro l' h y hy
    unfold mapMOption at h
    cases hfx : f x with
    | none =>
      rw [hfx] at h
      exact absurd h (by simp)
    | some b =>
      rw [hfx] at h
      dsimp only at h
      cases hm : mapMOption f xs with
      | none =>
        rw [hm] at h
        exact absurd h (by simp)
      | some bs =>
        rw [hm] at h
        dsimp only at h
        rw [← Option.some.inj h] at hy
        cases hy with
        | head => exact ⟨x, List.mem_cons_self x xs, hfx⟩
        | tail _ hmem =>
          obtain ⟨x', hx', hfx'⟩ := ih hm y hmem
          exact ⟨x', List.mem_cons_of_mem x hx', hfx'⟩

theorem filter_auxKeep_any_false (l : List String) :
    (l.filter (fun p => !(isAuxName p))).any isAuxName = false := by
  rw [List.any_eq_false]
  intro x hx
  have := (List.mem_filter.mp hx).2
  simpa using this

theorem transformInterface_no_aux (di : DelegateInfo) (i : InterfaceDecl) :
    interfaceHasAuxMember (transformInterface di i) = false := by
  unfold transformInterface interfaceHasAuxMember
  dsimp only
  by_cases ht : di.any (fun p => p.1.name ++ "Delegate" == i.name) = true
  · rw [if_pos ht]
    have hm : ((i.methods.filter (fun m => !(isAuxName m))).filter
        (fun m => !(createCreateManyUpsert.contains m))).any isAuxName = false := by
      rw [List.any_eq_false]
      intro x hx
      have := (List.mem_filter.mp (List.mem_filter.mp hx).1).2
      simpa using this
    rw [filter_auxKeep_any_false, hm]
    rfl
  · rw [if_neg ht]
    rw [filter_auxKeep_any_false, filter_auxKeep_any_false]
    rfl

theorem transformVariableStatement_no_aux (v : VariableStmt) :
    (transformVariableStatement v).declarations.any
      (fun d => d.typeProps.any isAuxName) = false := by
  unfold transformVariableStatement
  dsimp only
  rw [List.any_eq_false]
  intro d hd
  obtain ⟨d0, _, rfl⟩ := List.mem_map.mp hd
  simp [filter_auxKeep_any_false]

theorem transformTypeAlias_mem_no_aux {sch : Model} {di : DelegateInfo} {fuel : Nat}
    {ta out : TypeAliasDecl}
    (h : transformTypeAlias sch di fuel ta = some out) :
    ∀ p ∈ out.type.props, isAuxName p = false := by
  intro p hp
  unfold transformTypeAlias at h
  cases hs : subtractiveTypeAliasRewrites sch di fuel ta with
  | none =>
    rw [hs] at h
    exact absurd h (by simp)
  | some ta' =>
    rw [hs] at h
    dsimp only at h
    obtain ⟨ds, hc, hta'⟩ := subtractive_decomp hs
    have hout : out = ⟨ta'.name, fixDelegatePayloadType di ta'.name ta'.type⟩ :=
      (Option.some.inj h).symm
    rw [hout] at hp
    dsimp only at hp
    have h1 : p ∈ ta'.type.props := fix_props_subset hp
    rw [hta'] at h1
    dsimp only at h1
    exact (removeAux_mem (props_removeProps_subset
      (removeCreate_props_subset (removeNested_props_subset h1)))).2

theorem transformTypeAlias_any_no_aux {sch : Model} {di : DelegateInfo} {fuel : Nat}
    {ta out : TypeAliasDecl}
    (h : transformTypeAlias sch di fuel ta = some out) :
    out.type.props.any isAuxName = false := by
  rw [List.any_eq_false]
  intro p hp
  have := transformTypeAlias_mem_no_aux h p hp
  simp [this]

/-! ## Termination behaviour of the discriminator walk -/

theorem gdfrSupers_isSome {sch : Model}
    {rec : DataModel → List String → Option (List String)} :
    ∀ (sts : List String),
      (∀ st ∈ sts, ∀ m, lookupModel sch st = some m →
        ∀ acc, (rec m acc).isSome = true) →
      ∀ acc, (gdfrSupers sch rec sts acc).isSome = true := by
  intro sts
  induction sts with
  | nil =>
    intro _ acc
    rfl
  | cons st rest ih =>
    intro hrec acc
    unfold gdfrSupers
    cases hl : lookupModel sch st with
    | none =>
      exact ih (fun s hs => hrec s (List.mem_cons_of_mem st hs)) acc
    | some m =>
      dsimp only
      cases hr : rec m acc with
      | none =>
        have := hrec st (List.mem_cons_self st rest) m hl acc
        rw [hr] at this
        exact absurd this (by simp)
      | some r =>
        exact ih (fun s hs => hrec s (List.mem_cons_of_mem st hs)) (r ++ r)

theorem gdfr_cyc_none : ∀ (fuel : Nat) (acc : List String),
    getDiscriminatorFieldsRecursively cycSchema fuel cycA acc = none
    ∧ getDiscriminatorFieldsRecursively cycSchema fuel cycB acc = none := by
  intro fuel
  induction fuel with
  | zero =>
    intro acc
    exact ⟨rfl, rfl⟩
  | succ f ih =>
    intro acc
    have ihA : ∀ a, getDiscriminatorFieldsRecursively cycSchema f cycA a = none :=
      fun a => (ih a).1
    have ihB : ∀ a, getDiscriminatorFieldsRecursively cycSchema f cycB a = none :=
      fun a => (ih a).2
    have hlookA : lookupModel cycSchema "A" = some cycA := by decide
    have hlookB : lookupModel cycSchema "B" = some cycB := by decide
    constructor
    · show getDiscriminatorFieldsRecursively cycSchema (f + 1) cycA acc = none
      simp only [getDiscriminatorFieldsRecursively]
      rw [if_pos (show isDelegateModel cycA = true from rfl)]
      show gdfrSupers cycSchema _ ["B"] _ = none
      simp only [gdfrSupers]
      rw [hlookB]
      dsimp only
      rw [ihB]
    · show getDiscriminatorFieldsRecursively cycSchema (f + 1) cycB acc = none
      simp only [getDiscriminatorFieldsRecursively]
      rw [if_pos (show isDelegateModel cycB = true from rfl)]
      show gdfrSupers cycSchema _ ["A"] _ = none
      simp only [gdfrSupers]
      rw [hlookA]
      dsimp only
      rw [ihA]

/-! ## Claims -/

/-- C1: for a delegate base found in the hierarchy index under the alias
name `$<DelegateEntity>Payload`, `fixDelegatePayloadType` replaces the type
expression with exactly the union over the entry's concrete subtypes in
index order when the discriminator resolves, and leaves the expression
untouched when it does not. -/
theorem fixDelegatePayloadType_union_iff_discriminator
    (di : DelegateInfo) (typeName : String) (source : TypeExpr)
    (entry : DataModel × List DataModel)
    (hfind : di.find? (fun p => "$" ++ p.1.name ++ "Payload" == typeName) = some entry) :
    (∀ disc, getDiscriminatorField entry.1 = some disc →
        fixDelegatePayloadType di typeName source
          = .payloadUnion disc (entry.2.map (fun c => c.name)))
    ∧ (getDiscriminatorField entry.1 = none →
        fixDelegatePayloadType di typeName source = source) := by
  constructor
  · intro disc hdisc
    unfold fixDelegatePayloadType
    rw [hfind]
    dsimp only
    rw [hdisc]
  · intro hnone
    unfold fixDelegatePayloadType
    rw [hfind]
    dsimp only
    rw [hnone]

/-- C1 witness: `Base` with concrete subtypes `[A, B2]` and discriminator
`kind`: the payload alias becomes the two-way union in index order. -/
theorem fixDelegatePayloadType_union_iff_discriminator_witness :
    fixDelegatePayloadType (buildDelegateInfo unionSchema) "$BasePayload"
      (.record ["id", "kind"]) = .payloadUnion "kind" ["A", "B2"] :=
  (fixDelegatePayloadType_union_iff_discriminator (buildDelegateInfo unionSchema)
    "$BasePayload" (.record ["id", "kind"]) (baseModel, [modelA, modelB2])
    (by decide)).1 "kind" (by decide)

/-- C2: on a type alias whose name matches the concrete-input pattern, the
transformed type expression contains no property named after any field of
the governing delegate's recursive discriminator chain. -/
theorem transformTypeAlias_excludes_discriminator_chain
    (sch : Model) (di : DelegateInfo) (fuel : Nat) (ta out : TypeAliasDecl)
    (ds : List String) (d : String)
    (hout : transformTypeAlias sch di fuel ta = some out)
    (hds : concreteDiscriminatorChain sch di fuel ta.name = some ds)
    (hd : d ∈ ds) :
    d ∉ out.type.props := by
  intro hmem
  unfold transformTypeAlias at hout
  cases hs : subtractiveTypeAliasRewrites sch di fuel ta with
  | none =>
    rw [hs] at hout
    exact absurd hout (by simp)
  | some ta' =>
    rw [hs] at hout
    dsimp only at hout
    obtain ⟨ds', hc, hta'⟩ := subtractive_decomp hs
    rw [hds] at hc
    have hds' : ds = ds' := Option.some.inj hc
    subst hds'
    have hout' : out = ⟨ta'.name, fixDelegatePayloadType di ta'.name ta'.type⟩ :=
      (Option.some.inj hout).symm
    rw [hout'] at hmem
    dsimp only at hmem
    have h1 : d ∈ ta'.type.props := fix_props_subset hmem
    rw [hta'] at h1
    dsimp only at h1
    have h2 := removeCreate_props_subset (removeNested_props_subset h1)
    exact not_mem_removeProps hd h2

/-- C2 witness: in the two-level hierarchy Base(kind) to Mid(type) to Leaf,
`LeafCreateInput` loses both discriminators; `kind` is not among the
surviving properties. -/
theorem transformTypeAlias_excludes_discriminator_chain_witness :
    "kind" ∉ (TypeExpr.record ["url"]).props :=
  transformTypeAlias_excludes_discriminator_chain hierarchySchema hierarchyInfo 8
    ⟨"LeafCreateInput", .record ["kind", "type", "url"]⟩
    ⟨"LeafCreateInput", .record ["url"]⟩
    ["type", "kind", "type", "kind"] "kind" (by decide) (by decide) (by decide)

/-- C3: the delegate operations interface does lose `create`, `createMany`
and `upsert`, but the "only for matching aliases" half of the claim fails:
the constructed delegate-input regex escapes the first delegate name's
first letter, so with the delegate `Base` the alias `DatabaseCreateInput`
— which does not match `Base(Unchecked)?(Create|Update)...Input` (the
spec-words pattern) — still passes the code's test and loses its `create`
property. -/
theorem delegateInputRegex_overmatches_code_bug :
    delegateCreateUpdateInputTest ["Base"] "DatabaseCreateInput" = true
    ∧ specDelegateInputTest ["Base"] "DatabaseCreateInput" = false
    ∧ removeCreateFromDelegateInput [(baseModel, [])] "DatabaseCreateInput"
        (.record ["create", "data"]) = .record ["data"]
    ∧ transformInterface [(baseModel, [])]
        ⟨"BaseDelegate", [], ["create", "createMany", "upsert", "findMany"]⟩
      = ⟨"BaseDelegate", [], ["findMany"]⟩ := by
  refine ⟨by decide, by decide, by decide, by decide⟩

/-- C4 counterexample: with no delegate-marked entity the tree is copied
verbatim, so an aux-prefixed member survives in the output — aux stripping
is not unconditional and does depend on the hierarchy index being
non-empty. -/
theorem auxProperty_survives_copy_path :
    processClientTypes plainSchema 8 sfWithAux = some sfWithAux
    ∧ sourceFileHasAuxMember sfWithAux = true := by
  refine ⟨by decide, by decide⟩

/-- C4 (amended): whenever the transformation pass actually runs on the
Prisma namespace, no aux-prefixed member survives in any transformed
interface, type-alias type expression or variable type annotation of that
namespace. -/
theorem transformPrismaModule_strips_aux
    (sch : Model) (di : DelegateInfo) (fuel : Nat) (m out : ModuleDecl)
    (h : transformPrismaModule sch di fuel m = some out) :
    moduleHasAuxMember out = false := by
  unfold transformPrismaModule at h
  cases hm : mapMOption (transformTypeAlias sch di fuel) m.typeAliases with
  | none =>
    rw [hm] at h
    exact absurd h (by simp)
  | some newAliases =>
    rw [hm] at h
    dsimp only at h
    have hout := (Option.some.inj h).symm
    have h1 : (m.interfaces.map (transformInterface di)).any interfaceHasAuxMember = false := by
      rw [List.any_eq_false]
      intro i hi
      obtain ⟨i0, _, rfl⟩ := List.mem_map.mp hi
      simp [transformInterface_no_aux]
    have h2 : newAliases.any (fun t => t.type.props.any isAuxName) = false := by
      rw [List.any_eq_false]
      intro t ht
      obtain ⟨t0, _, hft⟩ := mapMOption_mem hm t ht
      simp [transformTypeAlias_any_no_aux hft]
    have h3 : (m.variableStatements.map transformVariableStatement).any
        (fun v => v.declarations.any (fun d => d.typeProps.any isAuxName)) = false := by
      rw [List.any_eq_false]
      intro v hv
      obtain ⟨v0, _, rfl⟩ := List.mem_map.mp hv
      simp [transformVariableStatement_no_aux]
    rw [hout]
    unfold moduleHasAuxMember
    dsimp only
    rw [h1, h2, h3]
    rfl

/-- C4 witness: the transform of a Prisma namespace carrying an
aux-prefixed interface property yields a namespace with no aux member. -/
theorem transformPrismaModule_strips_aux_witness :
    moduleHasAuxMember prismaAuxModuleOut = false :=
  transformPrismaModule_strips_aux hierarchySchema hierarchyInfo 8
    prismaAuxModule prismaAuxModuleOut (by decide)

/-- C5 counterexample: `Base` carries the delegate marker but has no
subtype, so by the claim's own definition the schema has no delegate
entity; the run is reachable (auth-valued default forces the logical
path), yet the output tree is not a copy — the payload alias is rewritten
to the empty union. -/
theorem processClientTypes_rewrites_subtypeless_marker :
    hasDelegateModel markerNoSubSchema = false
    ∧ needsLogicalClient markerNoSubSchema = true
    ∧ processClientTypes markerNoSubSchema 8 sfBasePayload = some sfBasePayloadOut
    ∧ sfBasePayloadOut ≠ sfBasePayload := by
  refine ⟨by decide, by decide, by decide, by decide⟩

/-- C5 (amended): for every schema in which no entity carries the delegate
marker at all, the output tree is a structural copy of the input. -/
theorem processClientTypes_identity_no_marker (sch : Model) (fuel : Nat) (sf : SourceFile)
    (h : sch.declarations.all (fun d => !(isDelegateModel d)) = true) :
    processClientTypes sch fuel sf = some sf := by
  have hfil : sch.declarations.filter isDelegateModel = [] := by
    rw [List.filter_eq_nil_iff]
    intro a ha
    have := List.all_eq_true.mp h a ha
    simp at this
    simp [this]
  unfold processClientTypes buildDelegateInfo
  rw [hfil]
  rfl

/-- C5 witness: a marker-free schema copies the tree verbatim. -/
theorem processClientTypes_identity_no_marker_witness :
    processClientTypes plainSchema 8 sfBasePayload = some sfBasePayload :=
  processClientTypes_identity_no_marker plainSchema 8 sfBasePayload (by decide)

/-- C6 counterexample: a schema with an auth-valued default and no
delegate-marked entity still takes the logical path and re-exports the
transformed declarations, refuting the claimed "iff some entity is
delegate-marked with a subtype". -/
theorem reexport_logical_without_delegate_hierarchy :
    generateModelsReexport authOnlySchema = .logicalClientFixed
    ∧ hasDelegateModel authOnlySchema = false := by
  refine ⟨by decide, by decide⟩

/-- C6 (amended): the re-export targets the transformed (logical)
declarations precisely when some delegate-marked entity has a subtype or
some field carries an auth-valued default. -/
theorem generateModelsReexport_iff (m : Model) :
    generateModelsReexport m = .logicalClientFixed
      ↔ ((∃ dm ∈ m.declarations, isDelegateModel dm = true
            ∧ ∃ sub ∈ m.declarations, dm.name ∈ sub.superTypes)
        ∨ ∃ dm ∈ m.declarations, ∃ f ∈ dm.fields, f.isDefaultWithAuth = true) := by
  have step : generateModelsReexport m = .logicalClientFixed ↔ needsLogicalClient m = true := by
    unfold generateModelsReexport
    by_cases hb : needsLogicalClient m = true
    · simp [hb]
    · simp [hb]
  rw [step]
  unfold needsLogicalClient hasDelegateModel hasAuthInDefault
  simp [List.any_eq_true, Bool.and_eq_true]

/-- C7 counterexample: on the cyclic supertype graph A to B to A the
discriminator-chain walk completes for no amount of fuel — there is no
visited-set guard and the recursion diverges. -/
theorem discriminatorWalk_cycle_diverges : ¬ discriminatorWalkTerminates cycSchema cycA := by
  rintro ⟨fuel, h⟩
  rw [(gdfr_cyc_none fuel []).1] at h
  exact absurd h (by simp)

/-- C7 (amended): the walk terminates on every schema whose resolving
supertype references strictly decrease some rank (an acyclicity
certificate), with the rank bounding the fuel needed; it carries no
visited-set guard and diverges on cyclic input. -/
theorem discriminatorWalk_terminates_of_rank (sch : Model) (rank : String → Nat)
    (hacyc : rankDecreases sch rank = true) :
    ∀ (fuel : Nat) (dm : DataModel), dm ∈ sch.declarations → rank dm.name < fuel →
      ∀ acc, (getDiscriminatorFieldsRecursively sch fuel dm acc).isSome = true := by
  intro fuel
  induction fuel with
  | zero =>
    intro dm _ hlt
    exact absurd hlt (Nat.not_lt_zero _)
  | succ f ih =>
    intro dm hdm hlt acc
    show (getDiscriminatorFieldsRecursively sch (f + 1) dm acc).isSome = true
    simp only [getDiscriminatorFieldsRecursively]
    by_cases hd : isDelegateModel dm = true
    · rw [if_pos hd]
      refine gdfrSupers_isSome dm.superTypes ?_ _
      intro st hst m hm acc'
      have h1 := List.all_eq_true.mp (by unfold rankDecreases at hacyc; exact hacyc) dm hdm
      have h2 := List.all_eq_true.mp h1 st hst
      rw [hm] at h2
      dsimp only at h2
      have hrk : rank m.name < rank dm.name := of_decide_eq_true h2
      have hmem : m ∈ sch.declarations := by
        unfold lookupModel at hm
        exact List.mem_of_find?_eq_some hm
      exact ih m hmem (Nat.lt_of_lt_of_le hrk (Nat.lt_succ_iff.mp hlt)) acc'
    · rw [if_neg hd]
      rfl

/-- C7 witness: the acyclic two-level hierarchy terminates with fuel 3 from
`Mid` under the explicit rank certificate. -/
theorem discriminatorWalk_terminates_of_rank_witness :
    (getDiscriminatorFieldsRecursively hierarchySchema 3 midModel []).isSome = true :=
  discriminatorWalk_terminates_of_rank hierarchySchema hierarchyRank (by decide) 3 midModel
    (by decide) (by decide) []

/-- C8 counterexample: a run whose first generator attempt fails and whose
retry succeeds still ends in the fatal plugin error — the retry outcome is
never consulted, refuting "a run whose retry succeeds continues
normally". -/
theorem generateLogicalPrisma_retrySuccess_still_fatal :
    (generateLogicalPrisma ⟨.failure, .success⟩).1 = .pluginError
    ∧ (generateLogicalPrisma ⟨.failure, .success⟩).1 ≠ .ok := by
  refine ⟨by decide, by decide⟩

/-- C8 (amended): the external generator is retried exactly once, with
console-inherited diagnostics, and the run fails with the fatal plugin
error whenever the first attempt fails, regardless of the retry's own
outcome; only a first-attempt success continues normally. -/
theorem generateLogicalPrisma_behavior (t : ExecTrace) :
    ((generateLogicalPrisma t).1 = .ok ↔ t.first = .success)
    ∧ ((generateLogicalPrisma t).1 = .pluginError ↔ t.first = .failure)
    ∧ (t.first = .failure → (generateLogicalPrisma t).2 = [.ignored, .inherited])
    ∧ (t.first = .success → (generateLogicalPrisma t).2 = [.ignored])
    ∧ (∀ t' : ExecTrace, t'.first = t.first →
        generateLogicalPrisma t' = generateLogicalPrisma t) := by
  obtain ⟨f, s⟩ := t
  cases f <;>
    refine ⟨by simp [generateLogicalPrisma], by simp [generateLogicalPrisma],
      by simp [generateLogicalPrisma], by simp [generateLogicalPrisma], ?_⟩ <;>
  · intro t' ht'
    obtain ⟨f', s'⟩ := t'
    dsimp only at ht'
    subst ht'
    rfl

/-- C8 witness: when the first attempt fails, the two invocations are the
quiet one and the verbose diagnostic rerun. -/
theorem generateLogicalPrisma_behavior_witness :
    (generateLogicalPrisma ⟨.failure, .success⟩).2 = [.ignored, .inherited] :=
  (generateLogicalPrisma_behavior ⟨.failure, .success⟩).2.2.1 rfl

/-- C9: each subtractive removal is a no-op when its targets are absent,
and re-running the subtractive rewrites — on their own output or on the
output of the full per-alias transformation — changes nothing. -/
theorem subtractiveRewrites_idempotent :
    (∀ (ns : List String) (e : TypeExpr),
        (∀ p ∈ e.props, ns.contains p = false) → removeProps ns e = e)
    ∧ (∀ (di : DelegateInfo) (i : InterfaceDecl),
        transformInterface di (transformInterface di i) = transformInterface di i)
    ∧ (∀ v : VariableStmt,
        transformVariableStatement (transformVariableStatement v) = transformVariableStatement v)
    ∧ (∀ (sch : Model) (di : DelegateInfo) (fuel : Nat) (ta out : TypeAliasDecl),
        subtractiveTypeAliasRewrites sch di fuel ta = some out →
        subtractiveTypeAliasRewrites sch di fuel out = some out)
    ∧ (∀ (sch : Model) (di : DelegateInfo) (fuel : Nat) (ta out : TypeAliasDecl),
        transformTypeAlias sch di fuel ta = some out →
        subtractiveTypeAliasRewrites sch di fuel out = some out) :=
  ⟨fun _ _ h => removeProps_noop h,
   transformInterface_idem,
   transformVariableStatement_idem,
   fun _ _ _ _ _ h => subtractive_fixed_point h,
   fun _ _ _ _ _ h => transform_then_subtractive h⟩

/-- C9 witness: re-running the subtractive rewrites on the transformed
`LeafCreateInput` changes nothing. -/
theorem subtractiveRewrites_idempotent_witness :
    subtractiveTypeAliasRewrites hierarchySchema hierarchyInfo 8
      ⟨"LeafCreateInput", .record ["url"]⟩ = some ⟨"LeafCreateInput", .record ["url"]⟩ :=
  subtractiveRewrites_idempotent.2.2.2.2 hierarchySchema hierarchyInfo 8
    ⟨"LeafCreateInput", .record ["kind", "type", "url"]⟩
    ⟨"LeafCreateInput", .record ["url"]⟩ (by decide)

/-- C10: the hierarchy index holds an entry for every delegate-marked
entity, subtypes or not; on the reachable marker-without-subtype schema
the payload alias is rewritten to the union over zero subtypes (the empty
type expression), not left untouched. -/
theorem delegateInfo_marker_only_empty_union :
    (∀ (sch : Model) (dm : DataModel), dm ∈ sch.declarations → isDelegateModel dm = true →
        ∃ cs, (dm, cs) ∈ buildDelegateInfo sch)
    ∧ needsLogicalClient markerNoSubSchema = true
    ∧ hasDelegateModel markerNoSubSchema = false
    ∧ processClientTypes markerNoSubSchema 8 sfBasePayload = some sfBasePayloadOut
    ∧ sfBasePayloadOut.modules = [⟨"Prisma", [], [], [], [], [], [],
        [⟨"$BasePayload", .payloadUnion "kind" []⟩]⟩] := by
  refine ⟨?_, by decide, by decide, by decide, by decide⟩
  intro sch dm hdm hdel
  refine ⟨sch.declarations.filter (fun d => d.superTypes.any (fun s => s == dm.name)), ?_⟩
  unfold buildDelegateInfo
  exact List.mem_map.mpr ⟨dm, List.mem_filter.mpr ⟨hdm, hdel⟩, rfl⟩

/-- C10 witness: `Base` appears in the hierarchy index of the
marker-without-subtype schema. -/
theorem delegateInfo_marker_only_empty_union_witness :
    ∃ cs, (baseModel, cs) ∈ buildDelegateInfo markerNoSubSchema :=
  delegateInfo_marker_only_empty_union.1 markerNoSubSchema baseModel (by decide) (by decide)

end ZenstackEnhance
